import Mathlib

/-!
Verification of `tsinspector.py` (kfsone/tsinspector) against its design
specification.  The Python source is shallowly embedded below:

* paths are `List Char` (Python `str` restricted to path characters);
* Python dicts become association lists with insert-or-overwrite update,
  mirroring CPython's in-place value replacement and insertion order;
* `os.path.dirname` is embedded from `posixpath.dirname` (`os.path` on the
  POSIX builds the module targets);
* the `while` loop of `Inspector._propagate` is embedded with explicit fuel
  (`propagateFuel`): a `none` result means the loop has not finished within
  the given number of iterations, and `∀ fuel, ... = none` means the source
  loop diverges;
* `Inspector._check` and the window resolution of `Inspector.__init__` are
  embedded as pure state-passing functions; exceptions become `Except`.
-/

namespace TsInspector

/-- Paths are Python strings, modelled as their character lists. -/
abbrev Path := List Char

/-- Shorthand turning a string literal into a `Path`. -/
def str (s : String) : Path := s.data

/-- `os.path.sep` on POSIX. -/
def sepChar : Char := '/'

/-- Embedding of `posixpath.dirname` (the `os.path.dirname` default argument of
`Inspector._propagate`): take the prefix up to and including the last `'/'`;
if that prefix is nonempty and not made of separators only, strip its trailing
separators. -/
def dirname (p : Path) : Path :=
  let head := (p.reverse.dropWhile (fun c => c ≠ sepChar)).reverse
  if head ≠ [] ∧ ¬ (head.all (fun c => c = sepChar) = true) then
    (head.reverse.dropWhile (fun c => c = sepChar)).reverse
  else head

/-- Python dictionaries keyed by paths: association lists in insertion order. -/
abbrev Dict (α : Type) := List (Path × α)

/-- `d.get(key, default)` on a Python dict. -/
def dget {α : Type} (m : Dict α) (key : Path) (dflt : α) : α :=
  match m with
  | [] => dflt
  | (k, v) :: rest => if k = key then v else dget rest key dflt

/-- `d[key] = v` on a Python dict: replace in place if present, else append. -/
def dictSet {α : Type} (m : Dict α) (key : Path) (v : α) : Dict α :=
  match m with
  | [] => [(key, v)]
  | (k, w) :: rest => if k = key then (k, v) :: rest else (k, w) :: dictSet rest key v

/-- `key in d` on a Python dict. -/
def dmem {α : Type} (m : Dict α) (key : Path) : Bool :=
  match m with
  | [] => false
  | (k, _) :: rest => k = key || dmem rest key

/-- Embedding of `Inspector._propagate(dest, path, stamp)` with explicit fuel.
The source loop is

    while path != "":
        oldval = dest.get(path, -1)
        if stamp < oldval:
            return
        dest[path] = stamp
        path = dirname(path)

`some` is the map when the loop finishes; `none` means the fuel ran out. -/
def propagateFuel : Nat → Dict Int → Path → Int → Option (Dict Int)
  | 0, _, _, _ => none
  | fuel + 1, dest, path, stamp =>
    if path = [] then some dest
    else if stamp < dget dest path (-1) then some dest
    else propagateFuel fuel (dictSet dest path stamp) (dirname path) stamp

/-- Embedding of line 136 of `Inspector.inspect`:
`root = root[topdirLen:] + os.path.sep`, the relative path under which a
directory yielded by `os.walk` is checked and propagated. -/
def walkRelRoot (topdir root : Path) : Path :=
  root.drop topdir.length ++ [sepChar]

/-- Embedding of line 139 of `Inspector.inspect`: `map(root.__add__, files)`
builds each file's relative path by prepending the directory's relative path. -/
def walkFilePath (relRoot name : Path) : Path :=
  relRoot ++ name

/-! ### Invariant predicates for `_propagate` (C3)

`A` is an ancestor of `P` exactly when iterating `os.path.dirname` from `P`
reaches `A` after at least one step; this is the ancestor chain the source loop
itself walks.  `MaxInv` is the claimed invariant; `RootFree` (the key `""` is
never in a map — the loop stops before writing it) and `ValsOK` (all stored
stamps are at least the sentinel `-1`) are auxiliary invariants of reachable
maps; `LoopInv` generalises `MaxInv` to the intermediate states of the loop,
allowing ancestors still to be visited to lag behind. -/

/-- Ancestors along the `dirname` chain, as walked by the source loop. -/
def isAncestor (A P : Path) : Prop :=
  ∃ k, 1 ≤ k ∧ dirname^[k] P = A

/-- The key `""` never occurs in a map. -/
def RootFree (m : Dict Int) : Prop := dmem m [] = false

/-- Every stored stamp is at least the sentinel `-1` used by `dest.get`. -/
def ValsOK (m : Dict Int) : Prop :=
  ∀ X, dmem m X = true → -1 ≤ dget m X (-1)

/-- The monotonic-max invariant: ancestors present in the map hold values at
least as large as their descendants, and are in fact always present. -/
def MaxInv (m : Dict Int) : Prop :=
  ∀ X, dmem m X = true → ∀ k, 1 ≤ k → dirname^[k] X ≠ [] →
    dmem m (dirname^[k] X) = true ∧ dget m X (-1) ≤ dget m (dirname^[k] X) (-1)

/-- Intermediate-state invariant for a running `_propagate (m, p, t)`:
every ancestor obligation either already holds, or the ancestor lies on the
still-unvisited chain `p, dirname p, …` and the descendant's value is at most
`t`, so the remaining iterations will restore it. -/
def LoopInv (m : Dict Int) (p : Path) (t : Int) : Prop :=
  ∀ X, dmem m X = true → ∀ k, 1 ≤ k → dirname^[k] X ≠ [] →
    (dmem m (dirname^[k] X) = true ∧ dget m X (-1) ≤ dget m (dirname^[k] X) (-1)) ∨
    ((∃ j, dirname^[k] X = dirname^[j] p) ∧ dget m X (-1) ≤ t)

/-- Maps reachable from the empty map by completed `_propagate` calls. -/
inductive Reaches : Dict Int → Prop
  | empty : Reaches []
  | step (m : Dict Int) (fuel : Nat) (p : Path) (t : Int) (m' : Dict Int) :
      Reaches m → propagateFuel fuel m p t = some m' → Reaches m'

/-! ### Window resolution (`Inspector.__init__`, lines 40-56) -/

/-- How the window-resolution code of `Inspector.__init__` can fail.
`argumentError msg` embeds the source's `raise ArgumentError(msg)` statements
(note the name `ArgumentError` is not defined anywhere in the module, so at
run time CPython actually raises a `NameError` from those statements);
`typeError` embeds the `TypeError` CPython raises when the source evaluates
`end - window` with `end = None`. -/
inductive InitError
  | argumentError (msg : String)
  | typeError
deriving DecidableEq

/-- Lines 52-56 of the source.  Lines 53-54 assign the defensive swap
`self.start = min(start, end); self.end = max(start, end)`, but line 56
(`self.start, self.end = start, end`) immediately overwrites both attributes
with the unswapped locals, so the stored pair is the original one. -/
def normalizeWindow (startv endv : Int) : Int × Int :=
  let lo := min startv endv
  let hi := max startv endv
  (startv, endv)

/-- Lines 40-56 of `Inspector.__init__`: resolve `(start, end, window)` into
the stored `(self.start, self.end)` pair, or fail. -/
def resolveWindow (startv endv window : Option Int) : Except InitError (Int × Int) :=
  match startv, endv with
  | some s, some e => Except.ok (normalizeWindow s e)
  | some s, none =>
    match window with
    | none => Except.error (InitError.argumentError "start requires end or window")
    | some w => Except.ok (normalizeWindow s (s + w))
  | none, endv =>
    match window with
    | none => Except.error (InitError.argumentError "end requires start or window")
    | some w =>
      match endv with
      | none => Except.error InitError.typeError
      | some e => Except.ok (normalizeWindow (e - w) e)

/-! ### The scan (`Inspector._check`, lines 84-120) -/

/-- An `os.stat` record restricted to the three fields the scanner reads. -/
structure Stat where
  st_ctime : Int
  st_atime : Int
  st_mtime : Int
deriving DecidableEq

/-- Classified probe failures (§4.3 of the spec): `notFound` is
`FileNotFoundError`, `permissionDenied` is `PermissionError`, `other` is any
other exception `os.stat` may raise. -/
inductive ProbeError
  | notFound
  | permissionDenied
  | other
deriving DecidableEq

/-- The per-instance configuration stored by `Inspector.__init__`: `topdir`,
the resolved window, and whether the two optional callbacks are registered. -/
structure Cfg where
  topdir : Path
  start : Int
  endv : Int
  hasMatchCb : Bool
  hasErrorCb : Bool
deriving DecidableEq

/-- The four result maps (source lines 11-14) together with the observable
callback invocations (`matchCalls` logs `matchCb(fullpath, st)` events,
`errorCalls` logs `errorCb(fullpath, e)` events). -/
structure Vars where
  created : Dict Int
  accessed : Dict Int
  modified : Dict Int
  errors : Dict ProbeError
  matchCalls : List (Path × Stat)
  errorCalls : List (Path × ProbeError)
deriving DecidableEq

/-- The membership test `start < timestamp < end` of lines 109, 112 and 115. -/
def fieldMatch (s e t : Int) : Bool :=
  decide (s < t) && decide (t < e)

/-- The `candidate` variable of lines 108-117: it starts at `0`, is set to the
first matching timestamp, and later matches only overwrite it when it is
falsy, i.e. still `0` (`candidate = st.st_atime if not candidate else
candidate`). -/
def candidateOf (s e : Int) (st : Stat) : Int :=
  let c1 : Int := if fieldMatch s e st.st_ctime then st.st_ctime else 0
  let c2 : Int :=
    if fieldMatch s e st.st_atime then (if c1 = 0 then st.st_atime else c1) else c1
  if fieldMatch s e st.st_mtime then (if c2 = 0 then st.st_mtime else c2) else c2

/-- Comparison target taken from the spec's words (§4.4): the representative
value is "the first matching kind's timestamp ... in the fixed precedence
order created, accessed, modified", with no overwriting. -/
def specFirstMatch (s e : Int) (st : Stat) : Option Int :=
  if fieldMatch s e st.st_ctime then some st.st_ctime
  else if fieldMatch s e st.st_atime then some st.st_atime
  else if fieldMatch s e st.st_mtime then some st.st_mtime
  else none

/-- The guarded propagation `if start < x < end: propagate(dest, path, x)` of
lines 109-116: when the guard is false the map is left alone. -/
def propIf (b : Bool) (fuel : Nat) (dest : Dict Int) (path : Path) (stamp : Int) :
    Option (Dict Int) :=
  if b then propagateFuel fuel dest path stamp else some dest

/-- The body of the `for path in paths` loop of `_check` after a successful
probe (lines 107-120): classify the three timestamps, propagate each matching
kind, and invoke the match callback when `candidate` is truthy.  `none`
signals that one of the inner `_propagate` loops is still running after
`fuel` iterations. -/
def checkStat (fuel : Nat) (cfg : Cfg) (v : Vars) (path : Path) (st : Stat) :
    Option Vars :=
  match propIf (fieldMatch cfg.start cfg.endv st.st_ctime) fuel v.created path st.st_ctime with
  | none => none
  | some created1 =>
    match propIf (fieldMatch cfg.start cfg.endv st.st_atime) fuel v.accessed path st.st_atime with
    | none => none
    | some accessed1 =>
      match propIf (fieldMatch cfg.start cfg.endv st.st_mtime) fuel v.modified path st.st_mtime with
      | none => none
      | some modified1 =>
        some { v with
          created := created1
          accessed := accessed1
          modified := modified1
          matchCalls :=
            if candidateOf cfg.start cfg.endv st ≠ 0 ∧ cfg.hasMatchCb = true
            then v.matchCalls ++ [(cfg.topdir ++ path, st)]
            else v.matchCalls }

/-- One iteration of the `for path in paths` loop of `_check` (lines 97-120):
probe `topdir + path`; `FileNotFoundError` and `PermissionError` are caught,
recorded in `errors` under the absolute path, forwarded to the error callback
when registered, and the loop continues; any other exception escapes the
`try` and aborts `_check` (modelled as `Except.error`). -/
def checkEntry (fuel : Nat) (probe : Path → Except ProbeError Stat) (cfg : Cfg)
    (v : Vars) (path : Path) : Option (Except ProbeError Vars) :=
  match probe (cfg.topdir ++ path) with
  | Except.ok st => Option.map Except.ok (checkStat fuel cfg v path st)
  | Except.error ProbeError.notFound =>
    some (Except.ok { v with
      errors := dictSet v.errors (cfg.topdir ++ path) ProbeError.notFound
      errorCalls :=
        if cfg.hasErrorCb = true
        then v.errorCalls ++ [(cfg.topdir ++ path, ProbeError.notFound)]
        else v.errorCalls })
  | Except.error ProbeError.permissionDenied =>
    some (Except.ok { v with
      errors := dictSet v.errors (cfg.topdir ++ path) ProbeError.permissionDenied
      errorCalls :=
        if cfg.hasErrorCb = true
        then v.errorCalls ++ [(cfg.topdir ++ path, ProbeError.permissionDenied)]
        else v.errorCalls })
  | Except.error ProbeError.other => some (Except.error ProbeError.other)

/-- The whole `for path in paths` loop of `_check`. -/
def checkPaths (fuel : Nat) (probe : Path → Except ProbeError Stat) (cfg : Cfg) :
    Vars → List Path → Option (Except ProbeError Vars)
  | v, [] => some (Except.ok v)
  | v, path :: rest =>
    match checkEntry fuel probe cfg v path with
    | none => none
    | some (Except.error e) => some (Except.error e)
    | some (Except.ok v') => checkPaths fuel probe cfg v' rest

/-! ### Concrete data for witnesses and counterexamples -/

deriving instance DecidableEq for Except

/-- Four empty maps and no callback invocations. -/
def emptyVars : Vars := ⟨[], [], [], [], [], []⟩

/-- Lines 11-14 of the source: `created`, `accessed`, `modified` and `errors`
are attributes of the CLASS body, evaluated once when the class is created;
`__init__` never assigns per-instance maps, so every `Inspector` instance
reads and mutates these same four dictionaries. -/
def classVars : Vars := emptyVars

/-- A sample reachable aggregate map: `propagate({}, "a/b", 7)`. -/
def mapAB : Dict Int := [(str "a/b", 7), (str "a", 7)]

/-- A scan configuration used in concrete runs: window `(0, 10)`, both
callbacks registered. -/
def cfgDemo : Cfg := ⟨str "/r/", 0, 10, true, true⟩

/-- A probe that always raises an unclassified (`other`) error. -/
def probeOther : Path → Except ProbeError Stat := fun _ => Except.error ProbeError.other

/-- A probe that always raises `PermissionError`. -/
def probeDenied : Path → Except ProbeError Stat :=
  fun _ => Except.error ProbeError.permissionDenied

/-- The class-shared state after a first `Inspector`'s scan has recorded a
`PermissionError` for absolute path `/r/x`.  Because the four maps live on the
class (lines 11-14), this — not `classVars` — is the state any second,
independently constructed `Inspector` starts its own scan from. -/
def varsAfterA : Vars :=
  { emptyVars with errors := [(str "/r/x", ProbeError.permissionDenied)] }

/-- A stat whose creation time sits exactly on the window start of `cfgDemo`
and whose other stamps are outside the window. -/
def statBoundary : Stat := ⟨0, 100, 100⟩

/-- Window `(-10, 10)` with both callbacks registered. -/
def cfgNeg : Cfg := ⟨str "/r/", -10, 10, true, true⟩

/-- A stat whose only matching stamp (under `cfgNeg`) is the creation time
`0` — a legitimate timestamp that Python's truthiness test treats as unset. -/
def statZero : Stat := ⟨0, 20, 20⟩

/-- The result of checking `statZero` under `cfgNeg` from fresh state. -/
def varsZero : Vars := { emptyVars with created := [(str "a", 0)] }

/-- A stat matching on created (5) and accessed (7) under window `(0, 10)`. -/
def statW : Stat := ⟨5, 7, 100⟩

/-- Window `(0, 10)`, no callbacks, `topdir = "/r/"`. -/
def cfgQuiet : Cfg := ⟨str "/r/", 0, 10, false, false⟩

/-- Stat of the directory `/r/a` in the C10 scenario: modified at 5. -/
def statDir : Stat := ⟨100, 100, 5⟩

/-- Stat of the file `/r/a/f` in the C10 scenario: modified at 9. -/
def statFile : Stat := ⟨100, 100, 9⟩

/-- The probe of the C10 scenario. -/
def probeTree : Path → Except ProbeError Stat :=
  fun p => if p = str "/r/a/f" then Except.ok statFile else Except.ok statDir

/-- Expected aggregate state of the C10 scenario: the directory `a` is present
both as `"a/"` (its own probe, keyed as yielded by the walk) and as `"a"`
(written by upward propagation via `dirname`), with different values. -/
def varsTree : Vars :=
  { emptyVars with modified := [(str "a/", 5), (str "a", 9), (str "a/f", 9)] }

-- Basic facts used throughout.

theorem dget_dictSet_same {α : Type} (m : Dict α) (k : Path) (v d : α) :
    dget (dictSet m k v) k d = v := by
  induction m with
  | nil => simp [dictSet, dget]
  | cons hd tl ih =>
    obtain ⟨k', w⟩ := hd
    by_cases h : k' = k
    · simp [dictSet, dget, h]
    · simp [dictSet, dget, h, ih]

theorem dget_dictSet_other {α : Type} (m : Dict α) (k k' : Path) (v d : α)
    (h : k' ≠ k) : dget (dictSet m k v) k' d = dget m k' d := by
  induction m with
  | nil =>
    simp only [dictSet, dget]
    rw [if_neg fun hh => h hh.symm]
  | cons hd tl ih =>
    obtain ⟨k0, w⟩ := hd
    simp only [dictSet]
    by_cases h0 : k0 = k
    · rw [if_pos h0]
      simp only [dget]
      have hne : ¬ k0 = k' := fun hh => h (hh.symm.trans h0)
      rw [if_neg hne, if_neg hne]
    · rw [if_neg h0]
      simp only [dget]
      by_cases h1 : k0 = k'
      · rw [if_pos h1, if_pos h1]
      · rw [if_neg h1, if_neg h1, ih]

theorem dmem_dictSet {α : Type} (m : Dict α) (k k' : Path) (v : α) :
    dmem (dictSet m k v) k' = true ↔ (k' = k ∨ dmem m k' = true) := by
  induction m with
  | nil =>
    simp only [dictSet, dmem, Bool.or_eq_true, decide_eq_true_eq]
    constructor
    · rintro (h | h)
      · exact Or.inl h.symm
      · cases h
    · rintro (h | h)
      · exact Or.inl h.symm
      · cases h
  | cons hd tl ih =>
    obtain ⟨k0, w⟩ := hd
    by_cases h0 : k0 = k
    · subst h0
      simp only [dictSet, if_pos rfl, dmem, Bool.or_eq_true, decide_eq_true_eq]
      constructor
      · rintro (h | h)
        · exact Or.inr (Or.inl h)
        · exact Or.inr (Or.inr h)
      · rintro (h | h | h)
        · exact Or.inl h.symm
        · exact Or.inl h
        · exact Or.inr h
    · simp only [dictSet, if_neg h0, dmem, Bool.or_eq_true, decide_eq_true_eq]
      rw [ih]
      tauto

theorem dget_of_not_dmem {α : Type} (m : Dict α) (k : Path) (d : α)
    (h : dmem m k = false) : dget m k d = d := by
  induction m with
  | nil => simp [dget]
  | cons hd tl ih =>
    obtain ⟨k0, w⟩ := hd
    simp only [dmem, Bool.or_eq_false_iff, decide_eq_false_iff_not] at h
    simp [dget, h.1, ih h.2]

theorem dget_default_irrel {α : Type} (m : Dict α) (k : Path) (d1 d2 : α)
    (h : dmem m k = true) : dget m k d1 = dget m k d2 := by
  induction m with
  | nil => cases h
  | cons hd tl ih =>
    obtain ⟨k0, w⟩ := hd
    by_cases h0 : k0 = k
    · simp [dget, h0]
    · simp only [dmem, Bool.or_eq_true, decide_eq_true_eq] at h
      rcases h with hh | hh
      · exact absurd hh h0
      · simp [dget, h0, ih hh]

theorem dictSet_self {α : Type} (m : Dict α) (k : Path) (v : α)
    (hm : dmem m k = true) (hv : dget m k v = v) : dictSet m k v = m := by
  induction m with
  | nil => cases hm
  | cons hd tl ih =>
    obtain ⟨k0, w⟩ := hd
    by_cases h0 : k0 = k
    · simp only [dget, if_pos h0] at hv
      simp [dictSet, h0, hv]
    · simp only [dmem, Bool.or_eq_true, decide_eq_true_eq] at hm
      rcases hm with hm | hm
      · exact absurd hm h0
      · simp only [dget, if_neg h0] at hv
        simp [dictSet, h0, ih hm hv]

-- `dirname` facts needed by the development; both are plain computations.

theorem dirname_nil : dirname [] = [] := rfl

theorem dirname_root : dirname [sepChar] = [sepChar] := by decide

theorem iterate_dirname_nil (j : Nat) : dirname^[j] [] = [] := by
  induction j with
  | zero => rfl
  | succ j ih => rw [Function.iterate_succ_apply, dirname_nil, ih]

/-- The `_propagate` loop never leaves the path `"/"`: once the current path is
the separator alone and the early exit does not fire, the loop rewrites the
same key forever. -/
theorem propagateFuel_root_none (fuel : Nat) :
    ∀ (m : Dict Int) (stamp : Int), dget m [sepChar] (-1) ≤ stamp →
      propagateFuel fuel m [sepChar] stamp = none := by
  induction fuel with
  | zero => intro m stamp _; rfl
  | succ fuel ih =>
    intro m stamp h
    have hne : ([sepChar] : Path) ≠ [] := by decide
    simp only [propagateFuel, if_neg hne, dirname_root]
    rw [if_neg (not_lt.mpr h)]
    exact ih (dictSet m [sepChar] stamp) stamp (le_of_eq (dget_dictSet_same m [sepChar] stamp (-1)))

/-- Keys are never removed by the `_propagate` loop. -/
theorem propagateFuel_dmem_mono (fuel : Nat) :
    ∀ (m : Dict Int) (p : Path) (t : Int) (m' : Dict Int) (k : Path),
      propagateFuel fuel m p t = some m' → dmem m k = true → dmem m' k = true := by
  induction fuel with
  | zero => intro m p t m' k h _; cases h
  | succ fuel ih =>
    intro m p t m' k h hk
    by_cases hp : p = []
    · simp only [propagateFuel, if_pos hp] at h
      cases h; exact hk
    · by_cases hlt : t < dget m p (-1)
      · simp only [propagateFuel, if_neg hp, if_pos hlt] at h
        cases h; exact hk
      · simp only [propagateFuel, if_neg hp, if_neg hlt] at h
        exact ih _ _ _ _ k h ((dmem_dictSet m p k t).mpr (Or.inr hk))

/-- Every value the `_propagate` loop writes is `stamp`; so afterwards each key
holds its old value or `stamp`. -/
theorem propagateFuel_dget (fuel : Nat) :
    ∀ (m : Dict Int) (p : Path) (t : Int) (m' : Dict Int) (k : Path),
      propagateFuel fuel m p t = some m' →
      dget m' k (-1) = dget m k (-1) ∨ dget m' k (-1) = t := by
  induction fuel with
  | zero => intro m p t m' k h; cases h
  | succ fuel ih =>
    intro m p t m' k h
    by_cases hp : p = []
    · simp only [propagateFuel, if_pos hp] at h
      cases h; exact Or.inl rfl
    · by_cases hlt : t < dget m p (-1)
      · simp only [propagateFuel, if_neg hp, if_pos hlt] at h
        cases h; exact Or.inl rfl
      · simp only [propagateFuel, if_neg hp, if_neg hlt] at h
        rcases ih _ _ _ _ k h with h1 | h1
        · by_cases hk : k = p
          · subst hk
            rw [h1, dget_dictSet_same]
            exact Or.inr rfl
          · rw [h1, dget_dictSet_other m p k t (-1) hk]
            exact Or.inl rfl
        · exact Or.inr h1

/-- C8: `_propagate` is idempotent — when a call `propagate(map, path, t)`
finishes and returns map `m'`, running the very same call again on `m'`
finishes too and returns `m'` unchanged, so two calls in succession yield the
same map as one. -/
theorem propagate_idempotent (fuel : Nat) :
    ∀ (m : Dict Int) (p : Path) (t : Int) (m' : Dict Int),
      propagateFuel fuel m p t = some m' → propagateFuel fuel m' p t = some m' := by
  induction fuel with
  | zero => intro m p t m' h; cases h
  | succ fuel ih =>
    intro m p t m' h
    by_cases hp : p = []
    · simp only [propagateFuel, if_pos hp]
    · by_cases hlt : t < dget m p (-1)
      · simp only [propagateFuel, if_neg hp, if_pos hlt] at h
        cases h
        simp only [propagateFuel, if_neg hp, if_pos hlt]
      · simp only [propagateFuel, if_neg hp, if_neg hlt] at h
        have hmem : dmem m' p = true :=
          propagateFuel_dmem_mono fuel _ _ _ _ p h
            ((dmem_dictSet m p p t).mpr (Or.inl rfl))
        have hval : dget m' p (-1) = t := by
          rcases propagateFuel_dget fuel _ _ _ _ p h with h1 | h1
          · rw [h1, dget_dictSet_same]
          · exact h1
        have hvalt : dget m' p t = t := by
          rw [dget_default_irrel m' p t (-1) hmem, hval]
        simp only [propagateFuel, if_neg hp]
        rw [if_neg (by rw [hval]; exact lt_irrefl t)]
        rw [dictSet_self m' p t hmem hvalt]
        exact ih _ _ _ _ h

-- The monotonic-max invariant development (C3).

theorem loopInv_of_maxInv {m : Dict Int} (h : MaxInv m) (p : Path) (t : Int) :
    LoopInv m p t :=
  fun X hX k hk hA => Or.inl (h X hX k hk hA)

theorem maxInv_of_root {m : Dict Int} {t : Int} (h : LoopInv m [] t) :
    MaxInv m := by
  intro X hX k hk hA
  rcases h X hX k hk hA with h1 | ⟨⟨j, hj⟩, _⟩
  · exact h1
  · rw [iterate_dirname_nil j] at hj
    exact absurd hj hA

theorem maxInv_of_exit {m : Dict Int} {p : Path} {t : Int}
    (hv : ValsOK m) (h : LoopInv m p t) (hex : t < dget m p (-1)) :
    MaxInv m := by
  intro X hX k hk hA
  rcases h X hX k hk hA with h1 | ⟨⟨j, hj⟩, hle⟩
  · exact h1
  · by_cases hpm : dmem m p = true
    · cases j with
      | zero =>
        simp only [Function.iterate_zero_apply] at hj
        rw [hj]
        exact ⟨hpm, hle.trans (le_of_lt hex)⟩
      | succ j' =>
        have hAne : dirname^[j' + 1] p ≠ [] := by rw [← hj]; exact hA
        rcases h p hpm (j' + 1) (Nat.succ_le_succ (Nat.zero_le j')) hAne with
          ⟨hmA, hvA⟩ | ⟨_, hlep⟩
        · rw [hj]
          exact ⟨hmA, hle.trans ((le_of_lt hex).trans hvA)⟩
        · exact absurd hex (not_lt.mpr hlep)
    · have hzero : dget m p (-1) = -1 :=
        dget_of_not_dmem m p (-1) (Bool.not_eq_true _ ▸ hpm)
      rw [hzero] at hex
      have := hv X hX
      omega

theorem loopInv_step {m : Dict Int} {p : Path} {t : Int}
    (hp : p ≠ []) (hnx : ¬ t < dget m p (-1)) (h : LoopInv m p t) :
    LoopInv (dictSet m p t) (dirname p) t := by
  intro X hX k hk hA
  rcases (dmem_dictSet m p X t).mp hX with hXp | hXm
  · subst hXp
    cases k with
    | zero => exact absurd hk (by omega)
    | succ k' =>
      refine Or.inr ⟨⟨k', ?_⟩, ?_⟩
      · rw [Function.iterate_succ_apply]
      · rw [dget_dictSet_same]
  · by_cases hXp : X = p
    · subst hXp
      cases k with
      | zero => exact absurd hk (by omega)
      | succ k' =>
        refine Or.inr ⟨⟨k', ?_⟩, ?_⟩
        · rw [Function.iterate_succ_apply]
        · rw [dget_dictSet_same]
    · have hgX : dget (dictSet m p t) X (-1) = dget m X (-1) :=
        dget_dictSet_other m p X t (-1) hXp
      rcases h X hXm k hk hA with ⟨hmA, hvA⟩ | ⟨⟨j, hj⟩, hle⟩
      · by_cases hAp : dirname^[k] X = p
        · refine Or.inl ⟨(dmem_dictSet m p _ t).mpr (Or.inl hAp), ?_⟩
          rw [hgX, hAp, dget_dictSet_same]
          rw [hAp] at hvA
          exact hvA.trans (not_lt.mp hnx)
        · refine Or.inl ⟨(dmem_dictSet m p _ t).mpr (Or.inr hmA), ?_⟩
          rw [hgX, dget_dictSet_other m p _ t (-1) hAp]
          exact hvA
      · cases j with
        | zero =>
          simp only [Function.iterate_zero_apply] at hj
          refine Or.inl ⟨(dmem_dictSet m p _ t).mpr (Or.inl hj), ?_⟩
          rw [hgX, hj, dget_dictSet_same]
          exact hle
        | succ j' =>
          refine Or.inr ⟨⟨j', ?_⟩, ?_⟩
          · rw [hj, Function.iterate_succ_apply]
          · rw [hgX]; exact hle

/-- Core preservation lemma: a finished `_propagate` call keeps all three
invariants of reachable maps. -/
theorem propagate_core (fuel : Nat) :
    ∀ (m : Dict Int) (p : Path) (t : Int) (m' : Dict Int),
      propagateFuel fuel m p t = some m' →
      RootFree m → ValsOK m → LoopInv m p t →
      RootFree m' ∧ ValsOK m' ∧ MaxInv m' := by
  induction fuel with
  | zero => intro m p t m' h; cases h
  | succ fuel ih =>
    intro m p t m' h hr hv hli
    by_cases hp : p = []
    · simp only [propagateFuel, if_pos hp] at h
      cases h
      subst hp
      exact ⟨hr, hv, maxInv_of_root hli⟩
    · by_cases hlt : t < dget m p (-1)
      · simp only [propagateFuel, if_neg hp, if_pos hlt] at h
        cases h
        exact ⟨hr, hv, maxInv_of_exit hv hli hlt⟩
      · simp only [propagateFuel, if_neg hp, if_neg hlt] at h
        have htm1 : -1 ≤ t := by
          by_cases hpm : dmem m p = true
          · have := hv p hpm
            have := not_lt.mp hlt
            omega
          · have hz : dget m p (-1) = -1 :=
              dget_of_not_dmem m p (-1) (Bool.not_eq_true _ ▸ hpm)
            rw [hz] at hlt
            omega
        refine ih _ _ _ _ h ?_ ?_ (loopInv_step hp hlt hli)
        · refine Bool.eq_false_iff.mpr fun hc => ?_
          rcases (dmem_dictSet m p [] t).mp hc with hc1 | hc1
          · exact hp hc1.symm
          · rw [hr] at hc1
            cases hc1
        · intro X hX
          by_cases hXp : X = p
          · subst hXp
            rw [dget_dictSet_same]
            exact htm1
          · rw [dget_dictSet_other m p X t (-1) hXp]
            exact hv X (((dmem_dictSet m p X t).mp hX).resolve_left hXp)

/-- C1: the claim says `_propagate` terminates on every relative path produced
by the walker, stopping at the early exit or at the empty string.  It is false:
the very first path the walker yields is `root[topdirLen:] + os.path.sep`
with `root = topdir`, i.e. the string `"/"`, and from `"/"` the loop can never
reach `""` because `os.path.dirname("/") = "/"`; the early exit (`stamp <
oldval`, strict) can never fire either once the key holds `stamp`.  With any
amount of fuel the embedded loop is still running, i.e. the source loop
diverges. -/
theorem propagate_walker_root_diverges :
    ∀ (fuel : Nat) (topdir : Path),
      propagateFuel fuel [] (walkRelRoot topdir topdir) 0 = none := by
  intro fuel topdir
  have hroot : walkRelRoot topdir topdir = [sepChar] := by
    simp [walkRelRoot, List.drop_length]
  rw [hroot]
  exact propagateFuel_root_none fuel [] 0 (by simp [dget])

theorem reaches_inv (m : Dict Int) (h : Reaches m) :
    RootFree m ∧ ValsOK m ∧ MaxInv m := by
  induction h with
  | empty =>
    refine ⟨rfl, ?_, ?_⟩
    · intro X hX; cases hX
    · intro X hX; cases hX
  | step m0 fuel p t m' _ hrun ih =>
    exact propagate_core fuel m0 p t m' hrun ih.1 ih.2.1 (loopInv_of_maxInv ih.2.2 p t)

/-- C3: after any sequence of completed `_propagate` calls starting from the
empty map, for every path `P` present in the map and every ancestor `A` of `P`
(along the `dirname` chain the loop itself walks) also present in the map,
`map[A] ≥ map[P]`. -/
theorem propagate_monotonic_invariant (m : Dict Int) (hm : Reaches m)
    (P A : Path) (hP : dmem m P = true) (hA : dmem m A = true)
    (hanc : isAncestor A P) :
    dget m P (-1) ≤ dget m A (-1) := by
  obtain ⟨k, hk, hkA⟩ := hanc
  obtain ⟨hr, hv, hinv⟩ := reaches_inv m hm
  by_cases hAnil : A = []
  · subst hAnil
    rw [hr] at hA
    cases hA
  · have hne : dirname^[k] P ≠ [] := by rw [hkA]; exact hAnil
    have hgoal := (hinv P hP k hk hne).2
    rw [hkA] at hgoal
    exact hgoal

/-- Witness for C3: the map reached by `propagate({}, "a/b", 7)` contains
`"a/b"` and its ancestor `"a"`, and the invariant holds between them. -/
theorem propagate_monotonic_invariant_witness :
    dmem mapAB (str "a/b") = true ∧ dmem mapAB (str "a") = true ∧
    dget mapAB (str "a/b") (-1) ≤ dget mapAB (str "a") (-1) :=
  ⟨by decide, by decide,
    propagate_monotonic_invariant mapAB
      (Reaches.step [] 5 (str "a/b") 7 mapAB Reaches.empty (by decide))
      (str "a/b") (str "a") (by decide) (by decide) ⟨1, le_refl 1, by decide⟩⟩

/-- Witness for C8: `propagate({}, "a", 5)` finishes with map `{"a": 5}`, and
running the same call again returns that map unchanged. -/
theorem propagate_idempotent_witness :
    propagateFuel 3 [] (str "a") 5 = some [(str "a", 5)] ∧
    propagateFuel 3 [(str "a", 5)] (str "a") 5 = some [(str "a", 5)] :=
  ⟨by decide, propagate_idempotent 3 [] (str "a") 5 [(str "a", 5)] (by decide)⟩

/-- C2 fails on the code: with `start=10, end=5` the resolved window stored by
`__init__` is `(10, 5)` — line 56 overwrites the defensive swap of lines
53-54 — so `start ≤ end` does not hold after resolution. -/
theorem resolved_window_not_normalized :
    resolveWindow (some 10) (some 5) none = Except.ok (10, 5) ∧ ¬ ((10 : Int) ≤ 5) :=
  ⟨rfl, by decide⟩

/-- C5: the two half-specified cases raise the code's `ArgumentError`s, but
the only-`window` case (start and end both absent) slips past both guards and
fails with a `TypeError` from `end - window` instead. -/
theorem insufficient_window_spec_errors :
    resolveWindow (some 3) none none =
      Except.error (InitError.argumentError "start requires end or window") ∧
    resolveWindow none (some 9) none =
      Except.error (InitError.argumentError "end requires start or window") ∧
    resolveWindow none none (some 180) = Except.error InitError.typeError :=
  ⟨rfl, rfl, rfl⟩

/-- Inversion of `checkStat`: a finished check produced its three maps from
the three guarded propagations and appended a match call exactly when the
`candidate` variable ended up truthy with a callback registered. -/
theorem checkStat_inv (fuel : Nat) (cfg : Cfg) (v : Vars) (path : Path) (st : Stat)
    (v' : Vars) (h : checkStat fuel cfg v path st = some v') :
    ∃ c1 a1 m1,
      propIf (fieldMatch cfg.start cfg.endv st.st_ctime) fuel v.created path st.st_ctime = some c1 ∧
      propIf (fieldMatch cfg.start cfg.endv st.st_atime) fuel v.accessed path st.st_atime = some a1 ∧
      propIf (fieldMatch cfg.start cfg.endv st.st_mtime) fuel v.modified path st.st_mtime = some m1 ∧
      v' = { v with
        created := c1
        accessed := a1
        modified := m1
        matchCalls :=
          if candidateOf cfg.start cfg.endv st ≠ 0 ∧ cfg.hasMatchCb = true
          then v.matchCalls ++ [(cfg.topdir ++ path, st)]
          else v.matchCalls } := by
  unfold checkStat at h
  split at h
  · cases h
  next c1 h1 =>
    split at h
    · cases h
    next a1 h2 =>
      split at h
      · cases h
      next m1 h3 =>
        cases h
        exact ⟨c1, a1, m1, h1, h2, h3, rfl⟩

/-- C6: window membership is strictly exclusive on both boundaries: the
per-field test of `_check` is exactly `start < t < end`, and a field whose
timestamp equals `start` or `end` does not match and leaves its aggregate map
untouched by the check. -/
theorem window_boundaries_strict (fuel : Nat) (cfg : Cfg) (v : Vars) (path : Path)
    (st : Stat) (v' : Vars) (hrun : checkStat fuel cfg v path st = some v') :
    (∀ t : Int, fieldMatch cfg.start cfg.endv t = true ↔ (cfg.start < t ∧ t < cfg.endv)) ∧
    ((st.st_ctime = cfg.start ∨ st.st_ctime = cfg.endv) → v'.created = v.created) ∧
    ((st.st_atime = cfg.start ∨ st.st_atime = cfg.endv) → v'.accessed = v.accessed) ∧
    ((st.st_mtime = cfg.start ∨ st.st_mtime = cfg.endv) → v'.modified = v.modified) := by
  obtain ⟨c1, a1, m1, h1, h2, h3, rfl⟩ := checkStat_inv fuel cfg v path st v' hrun
  have hbnd : ∀ t : Int, (t = cfg.start ∨ t = cfg.endv) →
      fieldMatch cfg.start cfg.endv t = false := by
    intro t ht
    refine Bool.eq_false_iff.mpr fun hc => ?_
    simp only [fieldMatch, Bool.and_eq_true, decide_eq_true_eq] at hc
    rcases ht with ht | ht
    · subst ht; exact lt_irrefl _ hc.1
    · subst ht; exact lt_irrefl _ hc.2
  refine ⟨?_, ?_, ?_, ?_⟩
  · intro t
    simp only [fieldMatch, Bool.and_eq_true, decide_eq_true_eq]
  · intro hb
    have hf := hbnd st.st_ctime hb
    unfold propIf at h1
    rw [hf] at h1
    simp only [Bool.false_eq_true, if_false, Option.some.injEq] at h1
    subst h1
    rfl
  · intro hb
    have hf := hbnd st.st_atime hb
    unfold propIf at h2
    rw [hf] at h2
    simp only [Bool.false_eq_true, if_false, Option.some.injEq] at h2
    subst h2
    rfl
  · intro hb
    have hf := hbnd st.st_mtime hb
    unfold propIf at h3
    rw [hf] at h3
    simp only [Bool.false_eq_true, if_false, Option.some.injEq] at h3
    subst h3
    rfl

/-- Witness for C6: a stat whose creation time equals the window start, other
stamps outside; the check finishes and leaves all maps empty. -/
theorem window_boundaries_strict_witness :
    checkStat 3 cfgDemo emptyVars (str "a") statBoundary = some emptyVars ∧
    (∀ t : Int, fieldMatch cfgDemo.start cfgDemo.endv t = true ↔
      (cfgDemo.start < t ∧ t < cfgDemo.endv)) :=
  ⟨by decide,
    (window_boundaries_strict 3 cfgDemo emptyVars (str "a") statBoundary emptyVars
      (by decide)).1⟩

/-- C9 counterexample: under window `(-10, 10)` a stat with creation time `0`
(and no other match) IS a match — `fieldMatch` holds and the created map is
updated — yet `candidate` stays `0` (falsy), so with a registered callback no
match call is made: the callback is not invoked "exactly when at least one of
the three timestamps falls strictly inside the window". -/
theorem zero_timestamp_match_not_reported :
    checkStat 3 cfgNeg emptyVars (str "a") statZero = some varsZero ∧
    fieldMatch cfgNeg.start cfgNeg.endv statZero.st_ctime = true ∧
    cfgNeg.hasMatchCb = true ∧
    varsZero.matchCalls = [] ∧
    specFirstMatch cfgNeg.start cfgNeg.endv statZero = some 0 ∧
    candidateOf cfgNeg.start cfgNeg.endv statZero = 0 := by
  decide

/-- C9 as amended: provided the first matching kind's timestamp is not the
falsy value `0`, the entry is reported exactly when some kind matches, the
`candidate` representative is the first matching kind's timestamp in the
order created, accessed, modified (later matches never overwrite it), and a
finished check appends a match call exactly when the representative is truthy
and a callback is registered. -/
theorem first_match_representative (s e : Int) (st : Stat)
    (h : specFirstMatch s e st ≠ some 0) :
    ((specFirstMatch s e st).isSome ↔ candidateOf s e st ≠ 0) ∧
    (∀ x, specFirstMatch s e st = some x → candidateOf s e st = x) ∧
    (∀ (fuel : Nat) (cfg : Cfg) (v : Vars) (path : Path) (v' : Vars),
      cfg.start = s → cfg.endv = e → checkStat fuel cfg v path st = some v' →
      v'.matchCalls =
        if candidateOf s e st ≠ 0 ∧ cfg.hasMatchCb = true
        then v.matchCalls ++ [(cfg.topdir ++ path, st)]
        else v.matchCalls) := by
  have hcall : ∀ (fuel : Nat) (cfg : Cfg) (v : Vars) (path : Path) (v' : Vars),
      cfg.start = s → cfg.endv = e → checkStat fuel cfg v path st = some v' →
      v'.matchCalls =
        if candidateOf s e st ≠ 0 ∧ cfg.hasMatchCb = true
        then v.matchCalls ++ [(cfg.topdir ++ path, st)]
        else v.matchCalls := by
    intro fuel cfg v path v' hs hev hrun
    obtain ⟨c1, a1, m1, _, _, _, rfl⟩ := checkStat_inv fuel cfg v path st v' hrun
    subst hs
    subst hev
    rfl
  refine ⟨?_, ?_, hcall⟩
  all_goals
    by_cases hc : fieldMatch s e st.st_ctime = true
  case pos | pos =>
    have hsp : specFirstMatch s e st = some st.st_ctime := by
      simp [specFirstMatch, hc]
    have hcne : st.st_ctime ≠ 0 := fun h0 => h (by rw [hsp, h0])
    have hcand : candidateOf s e st = st.st_ctime := by
      simp [candidateOf, hc, hcne]
    · simp [hsp, hcand, hcne]
  case neg | neg =>
    by_cases ha : fieldMatch s e st.st_atime = true
    · have hsp : specFirstMatch s e st = some st.st_atime := by
        simp [specFirstMatch, hc, ha]
      have hane : st.st_atime ≠ 0 := fun h0 => h (by rw [hsp, h0])
      have hcand : candidateOf s e st = st.st_atime := by
        simp [candidateOf, hc, ha, hane]
      simp [hsp, hcand, hane]
    · by_cases hm2 : fieldMatch s e st.st_mtime = true
      · have hsp : specFirstMatch s e st = some st.st_mtime := by
          simp [specFirstMatch, hc, ha, hm2]
        have hmne : st.st_mtime ≠ 0 := fun h0 => h (by rw [hsp, h0])
        have hcand : candidateOf s e st = st.st_mtime := by
          simp [candidateOf, hc, ha, hm2]
        simp [hsp, hcand, hmne]
      · have hsp : specFirstMatch s e st = none := by
          simp [specFirstMatch, hc, ha, hm2]
        have hcand : candidateOf s e st = 0 := by
          simp [candidateOf, hc, ha, hm2]
        simp [hsp, hcand]

/-- Witness for the amended C9: under window `(0, 10)` the stat `(5, 7, 100)`
matches first on created with the nonzero value `5`. -/
theorem first_match_representative_witness :
    specFirstMatch 0 10 statW ≠ some 0 ∧
    ((specFirstMatch 0 10 statW).isSome ↔ candidateOf 0 10 statW ≠ 0) :=
  ⟨by decide, (first_match_representative 0 10 statW (by decide)).1⟩

/-- C4 counterexample: a probe failure of any kind other than `NotFound` or
`PermissionDenied` is not caught by the `except` clause of `_check`: it is
not recorded in `errors` and it aborts the scan — the remaining entries are
never probed. -/
theorem other_error_aborts_scan :
    checkPaths 3 probeOther cfgDemo emptyVars [str "x", str "y"] =
      some (Except.error ProbeError.other) ∧
    ¬ ∃ w : Vars, checkPaths 3 probeOther cfgDemo emptyVars [str "x", str "y"] =
      some (Except.ok w) := by
  refine ⟨by decide, ?_⟩
  rintro ⟨w, hw⟩
  rw [show checkPaths 3 probeOther cfgDemo emptyVars [str "x", str "y"] =
      some (Except.error ProbeError.other) from by decide] at hw
  cases hw

/-- C4 as amended: a probe failure of kind `NotFound` or `PermissionDenied` is
recoverable — it is recorded in the errors map keyed by the absolute path,
forwarded to the error callback exactly when one is registered, and the scan
continues with the remaining entries from that state. -/
theorem recoverable_errors_recorded_and_continue (fuel : Nat)
    (probe : Path → Except ProbeError Stat) (cfg : Cfg) (v : Vars)
    (p : Path) (rest : List Path) (e : ProbeError)
    (he : e = ProbeError.notFound ∨ e = ProbeError.permissionDenied)
    (hp : probe (cfg.topdir ++ p) = Except.error e) :
    checkPaths fuel probe cfg v (p :: rest) =
      checkPaths fuel probe cfg
        { v with
          errors := dictSet v.errors (cfg.topdir ++ p) e
          errorCalls :=
            if cfg.hasErrorCb = true
            then v.errorCalls ++ [(cfg.topdir ++ p, e)]
            else v.errorCalls }
        rest := by
  rcases he with he | he <;> subst he <;> simp [checkPaths, checkEntry, hp]

/-- Witness for the amended C4: a `PermissionError` on the first of two
entries is recorded under the absolute path `/r/x`, the error callback fires,
and scanning proceeds to the second entry. -/
theorem recoverable_errors_witness :
    checkPaths 3 probeDenied cfgDemo emptyVars [str "x", str "y"] =
      checkPaths 3 probeDenied cfgDemo
        { emptyVars with
          errors := dictSet emptyVars.errors (cfgDemo.topdir ++ str "x")
            ProbeError.permissionDenied
          errorCalls :=
            if cfgDemo.hasErrorCb = true
            then emptyVars.errorCalls ++ [(cfgDemo.topdir ++ str "x",
              ProbeError.permissionDenied)]
            else emptyVars.errorCalls }
        [str "y"] :=
  recoverable_errors_recorded_and_continue 3 probeDenied cfgDemo emptyVars
    (str "x") [str "y"] ProbeError.permissionDenied (Or.inr rfl) rfl

/-- C7 fails on the code: the four result maps are class attributes (lines
11-14), created once when the class body runs (`classVars`) and never
re-created per instance — `__init__` assigns none of them.  After a first
`Inspector`'s scan records a probe failure, the class-level state
(`varsAfterA`) is what any second, independently constructed `Inspector`
starts from, and it is not the fresh empty state. -/
theorem class_level_maps_shared :
    checkPaths 3 probeDenied cfgQuiet classVars [str "x"] =
      some (Except.ok varsAfterA) ∧
    varsAfterA.errors = [(str "/r/x", ProbeError.permissionDenied)] ∧
    varsAfterA ≠ classVars := by
  decide

/-- C10: in a scan over `topdir = "/r/"` where directory `a` (modified at 5)
and file `a/f` (modified at 9) both match, the directory ends up in the
modified map under TWO keys: `"a/"` — its own probe, keyed as the walk yields
it, holding 5 — and `"a"` — written by upward propagation via `dirname` from
the file, holding 9.  The two keys are distinct and carry independent
values. -/
theorem directory_dual_keys :
    checkPaths 5 probeTree cfgQuiet emptyVars
        [walkRelRoot (str "/r/") (str "/r/a"),
         walkFilePath (walkRelRoot (str "/r/") (str "/r/a")) (str "f")] =
      some (Except.ok varsTree) ∧
    dmem varsTree.modified (str "a/") = true ∧
    dmem varsTree.modified (str "a") = true ∧
    dget varsTree.modified (str "a/") (-1) = 5 ∧
    dget varsTree.modified (str "a") (-1) = 9 ∧
    str "a/" ≠ str "a" := by
  decide

end TsInspector
